import Mathlib

/-!
# Verification of the OVH server-offer aggregation engine (`ovh/client.go`)

Shallow embedding of the offer engine of the `run-tbot` repository: data
model (`Availability`, `Catalog`, `Plan`, `Pricing`, `AddonFamily`,
`Offer`), the catalog indexer, the mandatory-addon resolver
(`pickMandatoryAddonsForFQN`), the price calculator (`priceForPlan`), the
total computation (`computeTotalMonthly`) and the assemble/sort/truncate
pipeline (`GetTopOffers`).

Modelling conventions:
* Go `float64` prices are modelled as exact rationals (`ℚ`).  Every price
  in the engine arises as `int64 / 100000000.0`; the claims under scrutiny
  (ordering, filtering, lengths, concrete decimal values) concern the
  numeric values and not the rounding of IEEE doubles, so the exact model
  is used throughout.
* Go `map[string]string` values are modelled as association lists in
  insertion order with overwrite-on-update (`mapInsert`); the engine only
  ever inserts and folds a commutative sum over them, so the unspecified
  Go iteration order is irrelevant to the modelled results.
* The network fetches (`loadAvailabilities`, `loadEcoCatalog`) are not
  modelled: the availability feed and the catalog are parameters, exactly
  the data the fetches hand to the rest of `GetTopOffers`.
* `sort.Slice` is a Go standard-library call, documented as "sorts the
  slice x given the provided less function. The sort is not guaranteed to
  be stable".  Its guaranteed behaviour is therefore modelled relationally
  (`GetTopOffers` below relates the input to any ascending permutation),
  and in addition the concrete algorithm the Go runtime actually executes
  for `sort.Slice` (pdqsort, `sort/zsortfunc.go`) is embedded executably
  (`sortSliceOffers`) so that its behaviour on concrete feeds can be
  computed.
* A Go run-time panic (the out-of-range slice `offers[:limit]` for a
  negative `top`) is modelled as `none` in an `Option` result.
-/

namespace Ovh

set_option linter.dupNamespace false

/-- `Datacenter` (struct, client.go): availability in one datacenter. -/
structure Datacenter where
  Datacenter : String
  Availability : String
deriving DecidableEq

/-- `Pricing` (struct, client.go): a pricing tier of a plan; `Price` is in
integer micro-units. -/
structure Pricing where
  Phase : Int
  Interval : Int
  IntervalUnit : String
  Duration : String
  Price : Int
  Tax : Int
  Description : String
deriving DecidableEq

/-- `AddonFamily` (struct, client.go): a family of addons of a plan. -/
structure AddonFamily where
  Name : String
  Exclusive : Bool
  Mandatory : Bool
  Addons : List String
  Default : String
deriving DecidableEq

/-- `Plan` (struct, client.go): a server plan or addon. -/
structure Plan where
  PlanCode : String
  InvoiceName : String
  Description : String
  AddonFamilies : List AddonFamily
  Pricings : List Pricing
deriving DecidableEq

/-- `Locale` (struct, client.go): currency and tax information. -/
structure Locale where
  CurrencyCode : String
  Subsidiary : String
  TaxRate : ℚ
deriving DecidableEq

/-- `Product` (struct, client.go). -/
structure Product where
  Name : String
deriving DecidableEq

/-- `Catalog` (struct, client.go): the OVH catalog response. -/
structure Catalog where
  CatalogID : Int
  Locale : Locale
  Plans : List Plan
  Addons : List Plan
  Products : List Product
deriving DecidableEq

/-- `Availability` (struct, client.go): one availability feed record. -/
structure Availability where
  FQN : String
  PlanCode : String
  Datacenters : List Datacenter
deriving DecidableEq

/-- `Offer` (struct, client.go): the engine's output record.  `Price` is
the total monthly price; `Addons` is the mandatory-addon choice map,
modelled as an association list in insertion order. -/
structure Offer where
  FQN : String
  PlanCode : String
  Price : ℚ
  Currency : String
  InvoiceName : String
  Addons : List (String × String)
deriving DecidableEq

/-- Substring occurrence on character lists: `occursIn needle hay` holds
iff `needle` appears contiguously in `hay`. -/
def occursIn (needle : List Char) : List Char → Bool
  | [] => needle.isEmpty
  | c :: t => needle.isPrefixOf (c :: t) || occursIn needle t

/-- `contains` (client.go): `len(s) > 0 && len(substr) > 0` and a
`regexp.QuoteMeta(substr)` match against `s`, i.e. a plain substring
test guarded by both strings being non-empty. -/
def contains (s substr : String) : Bool :=
  s.length > 0 && substr.length > 0 && occursIn substr.toList s.toList

/-- The optional `(-v\d+)?$` tail of the suffix pattern in
`pickMandatoryAddonsForFQN`: the remaining characters are empty or a
`-v` marker followed by at least one digit. -/
def matchVersionTail (cs : List Char) : Bool :=
  match cs with
  | [] => true
  | '-' :: 'v' :: ds => !ds.isEmpty && ds.all (·.isDigit)
  | _ => false

/-- Whole-tail match of the regular expression `-\d{2}[a-z]+\d*(-v\d+)?$`
(the `suffixPattern` of `pickMandatoryAddonsForFQN`) starting at the head
of `cs` and reaching the end of the string.  The character classes of the
pattern are pairwise disjoint, so the maximal-munch parse below decides
membership in the pattern's language. -/
def matchSuffixAt (cs : List Char) : Bool :=
  match cs with
  | '-' :: d1 :: d2 :: rest =>
    d1.isDigit && d2.isDigit &&
      (let letters := rest.takeWhile (·.isLower)
       let afterLetters := rest.dropWhile (·.isLower)
       !letters.isEmpty && matchVersionTail (afterLetters.dropWhile (·.isDigit)))
  | _ => false

/-- Leftmost end-anchored removal: drop the tail starting at the leftmost
position where `matchSuffixAt` succeeds (the semantics of
`ReplaceAllString(opt, "")` for the end-anchored `suffixPattern`). -/
def replaceSuffixChars : List Char → List Char
  | [] => []
  | c :: t => if matchSuffixAt (c :: t) then [] else c :: replaceSuffixChars t

/-- `suffixPattern.ReplaceAllString(opt, "")` (client.go line 440). -/
def suffixPatternStrip (s : String) : String :=
  ⟨replaceSuffixChars s.toList⟩

/-- The candidate loop body of `pickMandatoryAddonsForFQN` (client.go
lines 428–445): first candidate in order that matches the FQN raw, or
whose suffix-stripped form differs and matches; `""` when none does. -/
def pickAddonCandidate (fqn : String) : List String → String
  | [] => ""
  | opt :: rest =>
    if opt = "" then pickAddonCandidate fqn rest
    else if contains fqn opt then opt
    else
      let optBase := suffixPatternStrip opt
      if optBase ≠ opt ∧ contains fqn optBase then opt
      else pickAddonCandidate fqn rest

/-- Go map assignment `m[k] = v` on the association-list model: overwrite
the binding of `k` in place if present, otherwise append it. -/
def mapInsert (m : List (String × String)) (k v : String) : List (String × String) :=
  if m.any (·.1 = k) then m.map (fun p => if p.1 = k then (k, v) else p)
  else m ++ [(k, v)]

/-- `pickMandatoryAddonsForFQN` (client.go): for each mandatory addon
family pick the first FQN-matching candidate, falling back to the
family's default; record non-empty choices under the family name
(`"unknown"` for an empty name). -/
def pickMandatoryAddonsForFQN (plan : Plan) (fqn : String) : List (String × String) :=
  plan.AddonFamilies.foldl
    (fun result fam =>
      if !fam.Mandatory then result
      else
        let famName := if fam.Name = "" then "unknown" else fam.Name
        let chosen := pickAddonCandidate fqn fam.Addons
        let chosen := if chosen = "" then fam.Default else chosen
        if chosen ≠ "" then mapInsert result famName chosen else result)
    []

/-- `priceForPlan` (client.go): the first tier with `Interval == 1` and
`IntervalUnit == "month"`, else the first tier with `Duration == "P1M"`,
converted from micro-units by division by 100000000; `none` models the
"cannot extract monthly price" error.  The conversion is written
`Rat.divInt pr.Price 100000000`, which is exactly the rational division
`(pr.Price : ℚ) / 100000000` (lemma `Rat.divInt_eq_div`) in a form the
kernel can evaluate. -/
def priceForPlan (plan : Plan) (catalogCurrency : String) : Option (ℚ × String) :=
  match plan.Pricings.find? (fun pr => pr.Interval = 1 ∧ pr.IntervalUnit = "month") with
  | some pr => some (Rat.divInt pr.Price 100000000, catalogCurrency)
  | none =>
    match plan.Pricings.find? (fun pr => pr.Duration = "P1M") with
    | some pr => some (Rat.divInt pr.Price 100000000, catalogCurrency)
    | none => none

/-- Lookup in a Go map built by inserting the plans of `ps` in order,
keyed by `PlanCode` (`indexCatalog` builds such maps; a later duplicate
code overwrites an earlier one, hence the last match wins). -/
def indexGet (ps : List Plan) (code : String) : Option Plan :=
  ps.foldl (fun acc p => if p.PlanCode = code then some p else acc) none

/-- `indexCatalog` (client.go): the two lookup maps (plans, addons). -/
def indexCatalog (catalog : Catalog) : (String → Option Plan) × (String → Option Plan) :=
  (indexGet catalog.Plans, indexGet catalog.Addons)

/-- `getCatalogCurrency` (client.go). -/
def getCatalogCurrency (catalog : Catalog) : String :=
  if catalog.Locale.CurrencyCode ≠ "" then catalog.Locale.CurrencyCode else "UNKNOWN"

/-- `computeTotalMonthly` (client.go): price the base plan, resolve the
mandatory addons, and add the price of every addon that is present in the
addon index and priceable; addons that are absent or unpriceable are
skipped.  Returns `(total, currency, invoiceName, addons)`, or `none` for
the two error returns (plan not in index, base plan unpriceable). -/
def computeTotalMonthly (plansIdx addonsIdx : String → Option Plan)
    (planCode fqn catalogCurrency : String) :
    Option (ℚ × String × String × List (String × String)) :=
  match plansIdx planCode with
  | none => none
  | some plan =>
    match priceForPlan plan catalogCurrency with
    | none => none
    | some (basePrice, currency) =>
      let invoiceName := if plan.InvoiceName ≠ "" then plan.InvoiceName
        else if plan.Description ≠ "" then plan.Description
        else plan.PlanCode
      let mandatoryAddons := pickMandatoryAddonsForFQN plan fqn
      let total := mandatoryAddons.foldl
        (fun t addon =>
          match addonsIdx addon.2 with
          | none => t
          | some addonObj =>
            match priceForPlan addonObj catalogCurrency with
            | none => t
            | some (addonPrice, _) => t + addonPrice)
        basePrice
      some (total, currency, invoiceName, mandatoryAddons)

/-- The datacenter check of `GetTopOffers` (client.go lines 143–149):
some datacenter entry has the requested code and a status other than
`"unavailable"`. -/
def availableIn (item : Availability) (datacenter : String) : Bool :=
  item.Datacenters.any
    (fun dcInfo => dcInfo.Datacenter = datacenter && dcInfo.Availability ≠ "unavailable")

/-- The offer-assembly loop of `GetTopOffers` (client.go lines 129–171):
skip records with an empty FQN or plan code, records whose plan code is
absent from the plan index, records not available in the requested
datacenter, and records `computeTotalMonthly` cannot price; append an
`Offer` for each surviving record. -/
def buildOffers (availabilities : List Availability) (catalog : Catalog)
    (datacenter : String) : List Offer :=
  let idx := indexCatalog catalog
  let catalogCurrency := getCatalogCurrency catalog
  availabilities.foldl
    (fun offers item =>
      if item.FQN = "" ∨ item.PlanCode = "" then offers
      else if (idx.1 item.PlanCode).isNone then offers
      else if !availableIn item datacenter then offers
      else
        match computeTotalMonthly idx.1 idx.2 item.PlanCode item.FQN catalogCurrency with
        | none => offers
        | some (total, currency, invoiceName, addons) =>
          offers ++ [{ FQN := item.FQN, PlanCode := item.PlanCode, Price := total,
                       Currency := currency, InvoiceName := invoiceName, Addons := addons }])
    []

/-- Ascending-by-price check on adjacent offers. -/
def sortedByPrice : List Offer → Bool
  | [] => true
  | [_] => true
  | a :: b :: t => decide (a.Price ≤ b.Price) && sortedByPrice (b :: t)

/-- Steps 5–6 of `GetTopOffers` after the sort (client.go lines 178–188):
return `[]` for an empty list, otherwise slice to
`limit = min(top, len(offers))`.  The Go slice `offers[:limit]` panics
when `limit` is out of range (in particular negative), modelled by
`none`. -/
def truncateTop (top : Int) (offers : List Offer) : Option (List Offer) :=
  if offers.length = 0 then some []
  else
    let limit : Int := if (offers.length : Int) < top then (offers.length : Int) else top
    if 0 ≤ limit ∧ limit ≤ (offers.length : Int) then some (offers.take limit.toNat)
    else none

/-- `GetTopOffers` (client.go), relative to the already-fetched feed and
catalog: assemble the offers, sort them with `sort.Slice` — which
guarantees an ascending reordering but, per its documentation, not which
one ("the sort is not guaranteed to be stable") — and truncate to the
first `top`.  `result = none` models the run-time panic of the final
slice. -/
def GetTopOffers (availabilities : List Availability) (catalog : Catalog)
    (datacenter : String) (top : Int) (result : Option (List Offer)) : Prop :=
  ∃ s : List Offer,
    s.Perm (buildOffers availabilities catalog datacenter) ∧
    sortedByPrice s = true ∧
    result = truncateTop top s

/-!
## The algorithm Go actually runs for `sort.Slice`

`sort.Slice` dispatches to `pdqsort_func` (Go `sort/zsortfunc.go`,
Go ≥ 1.19; the repository pins Go 1.25).  The functions below embed that
algorithm verbatim over an array of offers with
`less i j := offers[i].Price < offers[j].Price`, the comparison closure
passed at client.go line 174.  Loops are written with an explicit
iteration budget (`fuel`) so that every definition is structurally
recursive and kernel-evaluable; each budget strictly exceeds the loop's
possible iteration count, so the budget is never exhausted.
-/

/-- Zero offer used as the (never reached) out-of-bounds default of the
array accessors. -/
def dOffer : Offer := ⟨"", "", 0, "", "", []⟩

/-- `data.Less(i, j)` for the closure of client.go line 174. -/
def lessO (arr : Array Offer) (i j : Nat) : Bool :=
  decide ((arr.getD i dOffer).Price < (arr.getD j dOffer).Price)

/-- `data.Swap(i, j)` (bounds-guarded; all uses are in bounds). -/
def swapO (arr : Array Offer) (i j : Nat) : Array Offer :=
  if h : i < arr.size then
    if h2 : j < arr.size then arr.swap ⟨i, h⟩ ⟨j, h2⟩ else arr
  else arr

/-- Inner loop of `insertionSort_func`: shift element `j` left while it
is less than its predecessor and `j > a`. -/
def insertInnerF (a : Nat) : Array Offer → Nat → Array Offer
  | arr, 0 => arr
  | arr, j+1 =>
    if a < j+1 && lessO arr (j+1) j then insertInnerF a (swapO arr (j+1) j) j
    else arr

/-- Outer loop of `insertionSort_func`, `i` from `a+1` while `i < b`. -/
def insertionSortOuter (a b : Nat) : Nat → Nat → Array Offer → Array Offer
  | 0, _, arr => arr
  | fuel+1, i, arr =>
    if i < b then insertionSortOuter a b fuel (i+1) (insertInnerF a arr i)
    else arr

/-- `insertionSort_func(data, a, b)`. -/
def insertionSortF (arr : Array Offer) (a b : Nat) : Array Offer :=
  insertionSortOuter a b b (a+1) arr

/-- `siftDown_func(data, lo, hi, first)` with `root` threading. -/
def siftDownF (first hi : Nat) : Nat → Array Offer → Nat → Array Offer
  | 0, arr, _ => arr
  | fuel+1, arr, root =>
    let child := 2*root + 1
    if child ≥ hi then arr
    else
      let child :=
        if child+1 < hi && lessO arr (first+child) (first+child+1) then child+1
        else child
      if !lessO arr (first+root) (first+child) then arr
      else siftDownF first hi fuel (swapO arr (first+root) (first+child)) child

/-- Heap-building loop of `heapSort_func`: `i` from `(hi-1)/2` down to 0;
the counter argument is `i + 1`. -/
def heapBuildLoop (first hi : Nat) : Nat → Array Offer → Array Offer
  | 0, arr => arr
  | i+1, arr => heapBuildLoop first hi i (siftDownF first hi hi arr i)

/-- Pop loop of `heapSort_func`: `i` from `hi-1` down to 0; the counter
argument is `i + 1`. -/
def heapPopLoop (first hi : Nat) : Nat → Array Offer → Array Offer
  | 0, arr => arr
  | i+1, arr => heapPopLoop first hi i (siftDownF first hi i (swapO arr first (first+i)) 0)

/-- `heapSort_func(data, a, b)`. -/
def heapSortF (arr : Array Offer) (a b : Nat) : Array Offer :=
  let first := a
  let hi := b - a
  heapPopLoop first hi hi (heapBuildLoop first hi ((hi-1)/2 + 1) arr)

/-- Inner loop of `reverseRange_func`. -/
def reverseRangeLoop : Nat → Array Offer → Nat → Nat → Array Offer
  | 0, arr, _, _ => arr
  | fuel+1, arr, i, j =>
    if i < j then reverseRangeLoop fuel (swapO arr i j) (i+1) (j-1) else arr

/-- `reverseRange_func(data, a, b)`. -/
def reverseRangeF (arr : Array Offer) (a b : Nat) : Array Offer :=
  reverseRangeLoop b arr a (b-1)

/-- `xorshift.Next` (Go `sort/sort.go`): the 64-bit xorshift step. -/
def xorshiftNext (r : Nat) : Nat :=
  let r := (r ^^^ (r <<< 13)) % 2^64
  let r := (r ^^^ (r >>> 17)) % 2^64
  (r ^^^ (r <<< 5)) % 2^64

/-- `bits.Len(n)`: position of the highest set bit. -/
def bitsLen (n : Nat) : Nat := if n = 0 then 0 else Nat.log2 n + 1

/-- `breakPatterns_func(data, a, b)`: three pseudo-random swaps around the
midpoint when the range has length at least 8 (xorshift seeded with the
length, `nextPowerOfTwo` modulus). -/
def breakPatternsF (arr : Array Offer) (a b : Nat) : Array Offer :=
  let length := b - a
  if length ≥ 8 then
    let modulus := 2 ^ bitsLen length
    let idx := a + (length/4)*2 - 1
    let r1 := xorshiftNext length
    let o1 := let o := r1 % modulus; if o ≥ length then o - length else o
    let arr := swapO arr (idx - 1) (a + o1)
    let r2 := xorshiftNext r1
    let o2 := let o := r2 % modulus; if o ≥ length then o - length else o
    let arr := swapO arr idx (a + o2)
    let r3 := xorshiftNext r2
    let o3 := let o := r3 % modulus; if o ≥ length then o - length else o
    swapO arr (idx + 1) (a + o3)
  else arr

/-- The three-valued `sortedHint` of `sort/zsortfunc.go`. -/
inductive SortHint
  | unknown
  | increasing
  | decreasing
deriving DecidableEq

/-- `order2_func(data, a, b, &swaps)`. -/
def order2F (arr : Array Offer) (a b swaps : Nat) : Nat × Nat × Nat :=
  if lessO arr b a then (b, a, swaps + 1) else (a, b, swaps)

/-- `median_func(data, a, b, c, &swaps)`. -/
def medianF (arr : Array Offer) (a b c swaps : Nat) : Nat × Nat :=
  let p1 := order2F arr a b swaps
  let a := p1.1
  let b := p1.2.1
  let p2 := order2F arr b c p1.2.2
  let b := p2.1
  let p3 := order2F arr a b p2.2.2
  (p3.2.1, p3.2.2)

/-- `medianAdjacent_func(data, a, &swaps)`. -/
def medianAdjacentF (arr : Array Offer) (a swaps : Nat) : Nat × Nat :=
  medianF arr (a-1) a (a+1) swaps

/-- `choosePivot_func(data, a, b)`: median (or ninther for length ≥ 50)
of three positions at quarters of the range, with the swap count turned
into a sortedness hint. -/
def choosePivotF (arr : Array Offer) (a b : Nat) : Nat × SortHint :=
  let l := b - a
  let i := a + l/4*1
  let j := a + l/4*2
  let k := a + l/4*3
  let jswaps :=
    if l ≥ 8 then
      let start :=
        if l ≥ 50 then
          let p1 := medianAdjacentF arr i 0
          let p2 := medianAdjacentF arr j p1.2
          let p3 := medianAdjacentF arr k p2.2
          (p1.1, p2.1, p3.1, p3.2)
        else (i, j, k, 0)
      medianF arr start.1 start.2.1 start.2.2.1 start.2.2.2
    else (j, 0)
  if jswaps.2 = 0 then (jswaps.1, SortHint.increasing)
  else if jswaps.2 = 12 then (jswaps.1, SortHint.decreasing)
  else (jswaps.1, SortHint.unknown)

/-- `for i <= j && data.Less(i, a) { i++ }` of `partition_func`. -/
def scanRight (arr : Array Offer) (a : Nat) : Nat → Nat → Nat → Nat
  | 0, i, _ => i
  | fuel+1, i, j => if i ≤ j && lessO arr i a then scanRight arr a fuel (i+1) j else i

/-- `for i <= j && !data.Less(j, a) { j-- }` of `partition_func`. -/
def scanLeft (arr : Array Offer) (a : Nat) : Nat → Nat → Nat → Nat
  | 0, _, j => j
  | fuel+1, i, j => if i ≤ j && !lessO arr j a then scanLeft arr a fuel i (j-1) else j

/-- Main exchange loop of `partition_func`; returns the final `j` and the
permuted array. -/
def partitionLoop (a b : Nat) : Nat → Array Offer → Nat → Nat → Nat × Array Offer
  | 0, arr, _, j => (j, arr)
  | fuel+1, arr, i, j =>
    let i := scanRight arr a (b+2) i j
    let j := scanLeft arr a (b+2) i j
    if i > j then (j, arr)
    else partitionLoop a b fuel (swapO arr i j) (i+1) (j-1)

/-- `partition_func(data, a, b, pivot)`: Hoare-style partition around the
pivot (moved to position `a`), returning the new pivot position, the
`alreadyPartitioned` flag and the permuted array. -/
def partitionF (arr : Array Offer) (a b pivot : Nat) : Nat × Bool × Array Offer :=
  let arr := swapO arr a pivot
  let i := scanRight arr a (b+2) (a+1) (b-1)
  let j := scanLeft arr a (b+2) i (b-1)
  if i > j then (j, true, swapO arr j a)
  else
    let arr := swapO arr i j
    let p := partitionLoop a b (b+2) arr (i+1) (j-1)
    (p.1, false, swapO p.2 p.1 a)

/-- `for i <= j && !data.Less(a, i) { i++ }` of `partitionEqual_func`. -/
def scanRightEq (arr : Array Offer) (a : Nat) : Nat → Nat → Nat → Nat
  | 0, i, _ => i
  | fuel+1, i, j => if i ≤ j && !lessO arr a i then scanRightEq arr a fuel (i+1) j else i

/-- `for i <= j && data.Less(a, j) { j-- }` of `partitionEqual_func`. -/
def scanLeftEq (arr : Array Offer) (a : Nat) : Nat → Nat → Nat → Nat
  | 0, _, j => j
  | fuel+1, i, j => if i ≤ j && lessO arr a j then scanLeftEq arr a fuel i (j-1) else j

/-- Exchange loop of `partitionEqual_func`; returns the final `i` and the
permuted array. -/
def partitionEqualLoop (a b : Nat) : Nat → Array Offer → Nat → Nat → Nat × Array Offer
  | 0, arr, i, _ => (i, arr)
  | fuel+1, arr, i, j =>
    let i := scanRightEq arr a (b+2) i j
    let j := scanLeftEq arr a (b+2) i j
    if i > j then (i, arr)
    else partitionEqualLoop a b fuel (swapO arr i j) (i+1) (j-1)

/-- `partitionEqual_func(data, a, b, pivot)`. -/
def partitionEqualF (arr : Array Offer) (a b pivot : Nat) : Nat × Array Offer :=
  let arr := swapO arr a pivot
  partitionEqualLoop a b (b+2) arr (a+1) (b-1)

/-- `for i < b && !data.Less(i, i-1) { i++ }` of
`partialInsertionSort_func`. -/
def pisScan (arr : Array Offer) (b : Nat) : Nat → Nat → Nat
  | 0, i => i
  | fuel+1, i => if i < b && !lessO arr i (i-1) then pisScan arr b fuel (i+1) else i

/-- Left shift of `partialInsertionSort_func`: `j` from `i-1` down while
`j ≥ 1` and element `j` is less than its predecessor. -/
def pisShiftLeft : Array Offer → Nat → Array Offer
  | arr, 0 => arr
  | arr, j+1 => if !lessO arr (j+1) j then arr else pisShiftLeft (swapO arr (j+1) j) j

/-- Right shift of `partialInsertionSort_func`: `j` from `i+1` up while
`j < b` and element `j` is less than its predecessor. -/
def pisShiftRight (b : Nat) : Nat → Array Offer → Nat → Array Offer
  | 0, arr, _ => arr
  | fuel+1, arr, j =>
    if j < b && lessO arr j (j-1) then pisShiftRight b fuel (swapO arr j (j-1)) (j+1)
    else arr

/-- Step loop of `partialInsertionSort_func` (`maxSteps = 5` rounds,
`shortestShifting = 50`): returns whether the range ended up sorted,
with the permuted array. -/
def partInsertionSortLoop (a b : Nat) : Nat → Array Offer → Nat → Bool × Array Offer
  | 0, arr, _ => (false, arr)
  | steps+1, arr, i =>
    let i := pisScan arr b (b+1) i
    if i = b then (true, arr)
    else if b - a < 50 then (false, arr)
    else
      let arr := swapO arr i (i-1)
      let arr := if i - a ≥ 2 then pisShiftLeft arr (i-1) else arr
      let arr := if b - i ≥ 2 then pisShiftRight b (b+1) arr (i+1) else arr
      partInsertionSortLoop a b steps arr i

/-- `partialInsertionSort_func(data, a, b)`. -/
def partInsertionSortF (arr : Array Offer) (a b : Nat) : Bool × Array Offer :=
  partInsertionSortLoop a b 5 arr (a+1)

/-- `pdqsort_func(data, a, b, limit)`: the iterative main loop with its
`wasBalanced` / `wasPartitioned` state, recursing on the shorter side of
each partition.  The first argument bounds the loop/recursion depth and
strictly exceeds it at every entry point used. -/
def pdqsortLoop : Nat → Array Offer → Nat → Nat → Nat → Bool → Bool → Array Offer
  | 0, arr, _, _, _, _, _ => arr
  | fuel+1, arr, a, b, limit, wasBalanced, wasPartitioned =>
    let length := b - a
    if length ≤ 12 then insertionSortF arr a b
    else if limit = 0 then heapSortF arr a b
    else
      let al :=
        if !wasBalanced then (breakPatternsF arr a b, limit - 1) else (arr, limit)
      let arr := al.1
      let limit := al.2
      let ph := choosePivotF arr a b
      let aph :=
        if ph.2 = SortHint.decreasing then
          (reverseRangeF arr a b, (b-1) - (ph.1 - a), SortHint.increasing)
        else (arr, ph.1, ph.2)
      let arr := aph.1
      let pivot := aph.2.1
      let hint := aph.2.2
      let cont := fun (arr : Array Offer) =>
        if a > 0 && !lessO arr (a-1) pivot then
          let p := partitionEqualF arr a b pivot
          pdqsortLoop fuel p.2 p.1 b limit wasBalanced wasPartitioned
        else
          let p := partitionF arr a b pivot
          let mid := p.1
          let wasPartitioned := p.2.1
          let arr := p.2.2
          let leftLen := mid - a
          let rightLen := b - mid
          let balanceThreshold := length / 8
          let wasBalanced := decide (min leftLen rightLen ≥ balanceThreshold)
          if leftLen < rightLen then
            pdqsortLoop fuel (pdqsortLoop fuel arr a mid limit true true)
              (mid+1) b limit wasBalanced wasPartitioned
          else
            pdqsortLoop fuel (pdqsortLoop fuel arr (mid+1) b limit true true)
              a mid limit wasBalanced wasPartitioned
      if wasBalanced && wasPartitioned && hint = SortHint.increasing then
        let p := partInsertionSortF arr a b
        if p.1 then p.2 else cont p.2
      else cont arr

/-- `sort.Slice(offers, less)` as executed by the Go runtime:
`pdqsort_func(data, 0, length, bits.Len(length))` over the offer slice.
The fuel `2*n + 64` strictly exceeds the recursion depth (which is
bounded by the range length, as every step proceeds to a strictly
shorter range). -/
def sortSliceOffers (offers : List Offer) : List Offer :=
  let arr := offers.toArray
  let n := arr.size
  (pdqsortLoop (2*n + 64) arr 0 n (bitsLen n) true true).toList

/-!
## Helper definitions and lemmas for the proofs
-/

/-- The contribution of the offers of one availability record to the
assembled list: the body of the `GetTopOffers` loop produces `[]` for a
filtered-out record and one offer otherwise. -/
def offerOfRecord (catalog : Catalog) (datacenter : String) (item : Availability) :
    List Offer :=
  let idx := indexCatalog catalog
  let catalogCurrency := getCatalogCurrency catalog
  if item.FQN = "" ∨ item.PlanCode = "" then []
  else if (idx.1 item.PlanCode).isNone then []
  else if !availableIn item datacenter then []
  else
    match computeTotalMonthly idx.1 idx.2 item.PlanCode item.FQN catalogCurrency with
    | none => []
    | some (total, currency, invoiceName, addons) =>
      [{ FQN := item.FQN, PlanCode := item.PlanCode, Price := total,
         Currency := currency, InvoiceName := invoiceName, Addons := addons }]

/-- The loop body of `GetTopOffers` as a named step function (identical
to the lambda inside `buildOffers`). -/
def buildStep (catalog : Catalog) (datacenter : String)
    (offers : List Offer) (item : Availability) : List Offer :=
  if item.FQN = "" ∨ item.PlanCode = "" then offers
  else if ((indexCatalog catalog).1 item.PlanCode).isNone then offers
  else if !availableIn item datacenter then offers
  else
    match computeTotalMonthly (indexCatalog catalog).1 (indexCatalog catalog).2
        item.PlanCode item.FQN (getCatalogCurrency catalog) with
    | none => offers
    | some (total, currency, invoiceName, addons) =>
      offers ++ [{ FQN := item.FQN, PlanCode := item.PlanCode, Price := total,
                   Currency := currency, InvoiceName := invoiceName, Addons := addons }]

theorem buildOffers_eq_foldl (availabilities : List Availability) (catalog : Catalog)
    (datacenter : String) :
    buildOffers availabilities catalog datacenter
      = availabilities.foldl (buildStep catalog datacenter) [] := rfl

theorem buildStep_eq (catalog : Catalog) (datacenter : String)
    (offers : List Offer) (item : Availability) :
    buildStep catalog datacenter offers item
      = offers ++ offerOfRecord catalog datacenter item := by
  unfold buildStep offerOfRecord
  by_cases h1 : item.FQN = "" ∨ item.PlanCode = ""
  · simp [h1]
  · by_cases h2 : ((indexCatalog catalog).1 item.PlanCode).isNone
    · simp [h1, h2]
    · by_cases h3 : availableIn item datacenter
      · rcases hc : computeTotalMonthly (indexCatalog catalog).1 (indexCatalog catalog).2
            item.PlanCode item.FQN (getCatalogCurrency catalog) with _ | ⟨t, c, n, ad⟩
        · simp [h1, h2, h3, hc]
        · simp [h1, h2, h3, hc]
      · simp [h1, h2, h3]

theorem foldl_append_eq {α β : Type} (g : α → List β) :
    ∀ (l : List α) (acc : List β),
      l.foldl (fun out x => out ++ g x) acc = acc ++ l.flatMap g := by
  intro l
  induction l with
  | nil => intro acc; simp
  | cons x t ih => intro acc; simp [ih]

theorem buildOffers_eq_bind (availabilities : List Availability) (catalog : Catalog)
    (datacenter : String) :
    buildOffers availabilities catalog datacenter
      = availabilities.flatMap (offerOfRecord catalog datacenter) := by
  rw [buildOffers_eq_foldl,
    show buildStep catalog datacenter
        = fun offers item => offers ++ offerOfRecord catalog datacenter item from
      funext fun offers => funext fun item => buildStep_eq catalog datacenter offers item,
    foldl_append_eq, List.nil_append]

theorem mem_offerOfRecord {catalog : Catalog} {datacenter : String}
    {item : Availability} {o : Offer} (h : o ∈ offerOfRecord catalog datacenter item) :
    item.FQN ≠ "" ∧ item.PlanCode ≠ "" ∧
    (indexGet catalog.Plans item.PlanCode).isSome = true ∧
    availableIn item datacenter = true ∧
    ∃ total currency invoiceName addons,
      computeTotalMonthly (indexGet catalog.Plans) (indexGet catalog.Addons)
          item.PlanCode item.FQN (getCatalogCurrency catalog)
        = some (total, currency, invoiceName, addons) ∧
      o = { FQN := item.FQN, PlanCode := item.PlanCode, Price := total,
            Currency := currency, InvoiceName := invoiceName, Addons := addons } := by
  unfold offerOfRecord indexCatalog at h
  by_cases h1 : item.FQN = "" ∨ item.PlanCode = ""
  · simp [h1] at h
  · rw [if_neg h1] at h
    by_cases h2 : (indexGet catalog.Plans item.PlanCode).isNone
    · simp [h2] at h
    · rw [if_neg h2] at h
      by_cases h3 : availableIn item datacenter
      · rw [if_neg (by simp [h3])] at h
        push_neg at h1
        refine ⟨h1.1, h1.2, by
          rcases hix : indexGet catalog.Plans item.PlanCode <;> simp_all, h3, ?_⟩
        rcases hc : computeTotalMonthly (indexGet catalog.Plans) (indexGet catalog.Addons)
            item.PlanCode item.FQN (getCatalogCurrency catalog) with _ | ⟨t, c, n, ad⟩
        · rw [hc] at h; simp at h
        · rw [hc] at h
          simp only [List.mem_singleton] at h
          exact ⟨t, c, n, ad, rfl, h⟩
      · rw [if_pos (by simp [h3])] at h
        simp at h

theorem mem_buildOffers {availabilities : List Availability} {catalog : Catalog}
    {datacenter : String} {o : Offer}
    (h : o ∈ buildOffers availabilities catalog datacenter) :
    ∃ item ∈ availabilities, o ∈ offerOfRecord catalog datacenter item := by
  rw [buildOffers_eq_bind] at h
  simpa using List.mem_flatMap.mp h

theorem truncateTop_nonneg (top : Int) (s : List Offer) (h : 0 ≤ top) :
    truncateTop top s = some (s.take (min top.toNat s.length)) := by
  by_cases h0 : s.length = 0
  · obtain rfl : s = [] := List.length_eq_zero.mp h0
    simp [truncateTop]
  · simp only [truncateTop, if_neg h0]
    by_cases hlt : (s.length : Int) < top
    · rw [if_pos hlt, if_pos ⟨by omega, by omega⟩]
      have he : min top.toNat s.length = ((s.length : Int)).toNat := by omega
      rw [he]
    · rw [if_neg hlt, if_pos ⟨by omega, by omega⟩]
      have he : min top.toNat s.length = top.toNat := by omega
      rw [he]

theorem truncateTop_neg (top : Int) (s : List Offer) (htop : top < 0) (hs : s ≠ []) :
    truncateTop top s = none := by
  have h0 : s.length ≠ 0 := fun hh => hs (List.length_eq_zero.mp hh)
  have hlt : ¬ ((s.length : Int) < top) := by omega
  simp only [truncateTop, if_neg h0, if_neg hlt]
  rw [if_neg (by omega)]

theorem truncateTop_eq_some {top : Int} {s r : List Offer}
    (h : truncateTop top s = some r) : r = s.take (min top.toNat s.length) := by
  by_cases htop : 0 ≤ top
  · rw [truncateTop_nonneg top s htop] at h
    exact (Option.some.inj h).symm
  · by_cases hs : s = []
    · subst hs
      simp only [truncateTop, List.length_nil, if_pos rfl] at h
      obtain rfl := Option.some.inj h
      simp
    · rw [truncateTop_neg top s (by omega) hs] at h
      exact absurd h (by simp)

theorem sortedByPrice_iff_chain (l : List Offer) :
    sortedByPrice l = true ↔ List.Chain' (fun a b : Offer => a.Price ≤ b.Price) l := by
  induction l with
  | nil => simp [sortedByPrice]
  | cons a t ih =>
    cases t with
    | nil => simp [sortedByPrice]
    | cons b t2 =>
      simp only [sortedByPrice, Bool.and_eq_true, decide_eq_true_eq, List.chain'_cons]
      exact and_congr Iff.rfl ih

theorem sortedByPrice_take {l : List Offer} (h : sortedByPrice l = true) (n : Nat) :
    sortedByPrice (l.take n) = true := by
  rw [sortedByPrice_iff_chain] at h ⊢
  exact h.prefix (List.take_prefix n l)

/-!
## Shared concrete sample data (for claim witnesses)

A two-record feed over a two-plan catalog in which the cheaper plan is
encountered second, so that the sorted result differs from the feed
order.
-/

/-- Sample plan: a single monthly pricing tier of `micro` micro-units. -/
def exPlan (code : String) (micro : Int) : Plan :=
  ⟨code, "srv " ++ code, "", [], [⟨0, 1, "month", "", micro, 0, ""⟩]⟩

/-- Sample availability record: available in datacenter `"lon"`. -/
def exAvail (f code : String) : Availability :=
  ⟨f, code, [⟨"lon", "available"⟩]⟩

/-- Sample catalog: two plans at 2.00 and 1.00 GBP. -/
def exCatalog : Catalog :=
  ⟨1, ⟨"GBP", "GB", 0⟩, [exPlan "p1" 200000000, exPlan "p2" 100000000], [], []⟩

/-- Sample feed: the pricier plan first. -/
def exFeed : List Availability := [exAvail "f1" "p1", exAvail "f2" "p2"]

/-- Offer produced by the sample catalog for plan `code` at price `v`. -/
def exOffer (f code : String) (v : ℚ) : Offer :=
  ⟨f, code, v, "GBP", "srv " ++ code, []⟩

/-- The ascending reordering of the offers assembled from `exFeed`. -/
def exSorted : List Offer := [exOffer "f2" "p2" 1, exOffer "f1" "p1" 2]

/-!
## Claim theorems
-/

/-- C1: for every availability feed, catalog, datacenter code and topN,
every pair of adjacent offers in the list returned by `GetTopOffers` is
ordered ascending by total price: `0 < i < len(result)` implies
`result[i-1].Price ≤ result[i].Price`. -/
theorem c1_getTopOffers_sorted
    (availabilities : List Availability) (catalog : Catalog) (datacenter : String)
    (top : Int) (result : List Offer)
    (h : GetTopOffers availabilities catalog datacenter top (some result))
    (i : Nat) (h0 : 0 < i) (hi : i < result.length) :
    (result.get ⟨i-1, by omega⟩).Price ≤ (result.get ⟨i, hi⟩).Price := by
  obtain ⟨s, hperm, hsort, heq⟩ := h
  obtain rfl : result = s.take (min top.toNat s.length) := truncateTop_eq_some heq.symm
  have hs : sortedByPrice (s.take (min top.toNat s.length)) = true :=
    sortedByPrice_take hsort _
  rw [sortedByPrice_iff_chain] at hs
  have hadj := List.chain'_iff_get.mp hs (i-1) (by omega)
  have e : i - 1 + 1 = i := by omega
  simp only [e] at hadj
  exact hadj

/-- Witness for C1 at a concrete input: two offers, the first cheaper. -/
theorem c1_getTopOffers_sorted_witness :
    (exSorted.get ⟨0, by decide⟩).Price ≤ (exSorted.get ⟨1, by decide⟩).Price :=
  c1_getTopOffers_sorted exFeed exCatalog "lon" 2 exSorted
    ⟨exSorted, by decide, by decide, by decide⟩ 1 (by decide) (by decide)

/-- C3: for every feed, catalog and datacenter, and every `topN = N ≥ 0`,
the list returned by `GetTopOffers` has length exactly
`min(N, number of records that survive all filters and are priceable)`
(each surviving record contributes exactly one assembled offer, so that
count is the length of `buildOffers`); in particular the length is at
most `N`, and `N = 0` yields an empty list. -/
theorem c3_getTopOffers_length
    (availabilities : List Availability) (catalog : Catalog) (datacenter : String)
    (top : Int) (result : List Offer) (htop : 0 ≤ top)
    (h : GetTopOffers availabilities catalog datacenter top (some result)) :
    result.length = min top.toNat (buildOffers availabilities catalog datacenter).length ∧
    result.length ≤ top.toNat ∧
    (top = 0 → result = []) := by
  obtain ⟨s, hperm, hsort, heq⟩ := h
  obtain rfl := truncateTop_eq_some heq.symm
  have hlen : s.length = (buildOffers availabilities catalog datacenter).length :=
    hperm.length_eq
  refine ⟨?_, ?_, ?_⟩
  · rw [List.length_take]; omega
  · rw [List.length_take]; omega
  · intro h0
    subst h0
    simp

/-- Witness for C3 at a concrete input: two survivors, `top = 2`. -/
theorem c3_getTopOffers_length_witness :
    exSorted.length = min (2 : Int).toNat (buildOffers exFeed exCatalog "lon").length ∧
    exSorted.length ≤ (2 : Int).toNat ∧
    ((2 : Int) = 0 → exSorted = []) :=
  c3_getTopOffers_length exFeed exCatalog "lon" 2 exSorted (by decide)
    ⟨exSorted, by decide, by decide, by decide⟩

/-- C10: the final truncation of `GetTopOffers` is in bounds for every
`top ≥ 0` (the slice bound `min(top, len)` never exceeds the length), an
empty assembled list yields `some []` before slicing, and totality
depends on `top ≥ 0`: a negative `top` together with at least one
assembled offer makes the slice bound negative and the truncation out of
range (`none`, the modelled panic). -/
theorem c10_truncation_bounds :
    (∀ (top : Int) (offers : List Offer), 0 ≤ top →
      truncateTop top offers = some (offers.take (min top.toNat offers.length))) ∧
    (∀ top : Int, truncateTop top [] = some []) ∧
    (∀ (top : Int) (offers : List Offer), top < 0 → offers ≠ [] →
      truncateTop top offers = none) ∧
    (∀ (availabilities : List Availability) (catalog : Catalog) (datacenter : String)
        (top : Int) (result : Option (List Offer)), 0 ≤ top →
      GetTopOffers availabilities catalog datacenter top result →
      ∃ r, result = some r) ∧
    (∀ (availabilities : List Availability) (catalog : Catalog) (datacenter : String)
        (top : Int) (result : Option (List Offer)), top < 0 →
      buildOffers availabilities catalog datacenter ≠ [] →
      GetTopOffers availabilities catalog datacenter top result →
      result = none) := by
  refine ⟨truncateTop_nonneg, ?_, truncateTop_neg, ?_, ?_⟩
  · intro top
    simp [truncateTop]
  · rintro availabilities catalog datacenter top result htop ⟨s, hperm, hsort, heq⟩
    rw [truncateTop_nonneg top s htop] at heq
    exact ⟨_, heq⟩
  · rintro availabilities catalog datacenter top result htop hne ⟨s, hperm, hsort, heq⟩
    have hlen : s.length = (buildOffers availabilities catalog datacenter).length :=
      hperm.length_eq
    have hsne : s ≠ [] := by
      intro hs
      subst hs
      exact hne (List.length_eq_zero.mp (by simpa using hlen.symm))
    rw [truncateTop_neg top s htop hsne] at heq
    exact heq

/-- Witness for C10 at concrete inputs: `top = 3` is in bounds, `top = -1`
on a nonempty list is out of range. -/
theorem c10_truncation_bounds_witness :
    truncateTop 3 exSorted = some (exSorted.take (min (3 : Int).toNat exSorted.length)) ∧
    truncateTop (-1) exSorted = none :=
  ⟨c10_truncation_bounds.1 3 exSorted (by decide),
   c10_truncation_bounds.2.2.1 (-1) exSorted (by decide) (by decide)⟩

theorem find?_append_first {α : Type} (p : α → Bool) (pre post : List α) (x : α)
    (hpre : ∀ y ∈ pre, p y = false) (hx : p x = true) :
    (pre ++ x :: post).find? p = some x := by
  induction pre with
  | nil => simpa using List.find?_cons_of_pos post hx
  | cons a t ih =>
    rw [List.cons_append, List.find?_cons_of_neg _ (by simp [hpre a (List.mem_cons_self a t)])]
    exact ih fun y hy => hpre y (List.mem_cons_of_mem a hy)

/-- C4: an availability record contributes an offer to the output of
`GetTopOffers` only if its identifier and plan code are both non-empty,
its plan code is present in the base-plan index built from the catalog,
and at least one of its datacenter entries has the requested datacenter
code with status not equal to `"unavailable"`; in particular every offer
in the output carries a plan code present in the index, so a record
whose plan code is absent never appears. -/
theorem c4_offer_provenance
    (availabilities : List Availability) (catalog : Catalog) (datacenter : String)
    (top : Int) (result : List Offer) (o : Offer)
    (h : GetTopOffers availabilities catalog datacenter top (some result))
    (ho : o ∈ result) :
    (indexGet catalog.Plans o.PlanCode).isSome = true ∧
    ∃ item ∈ availabilities,
      o.FQN = item.FQN ∧ o.PlanCode = item.PlanCode ∧
      item.FQN ≠ "" ∧ item.PlanCode ≠ "" ∧
      (indexGet catalog.Plans item.PlanCode).isSome = true ∧
      ∃ d ∈ item.Datacenters,
        d.Datacenter = datacenter ∧ d.Availability ≠ "unavailable" := by
  obtain ⟨s, hperm, hsort, heq⟩ := h
  obtain rfl := truncateTop_eq_some heq.symm
  have hos : o ∈ s := List.mem_of_mem_take ho
  have hob : o ∈ buildOffers availabilities catalog datacenter := hperm.mem_iff.mp hos
  obtain ⟨item, hitem, hrec⟩ := mem_buildOffers hob
  obtain ⟨hf, hp, hidx, hav, t, c, n, ad, hc, rfl⟩ := mem_offerOfRecord hrec
  refine ⟨hidx, item, hitem, rfl, rfl, hf, hp, hidx, ?_⟩
  simpa [availableIn] using hav

/-- Witness for C4 at a concrete input. -/
theorem c4_offer_provenance_witness :
    (indexGet exCatalog.Plans (exOffer "f2" "p2" 1).PlanCode).isSome = true ∧
    ∃ item ∈ exFeed,
      (exOffer "f2" "p2" 1).FQN = item.FQN ∧
      (exOffer "f2" "p2" 1).PlanCode = item.PlanCode ∧
      item.FQN ≠ "" ∧ item.PlanCode ≠ "" ∧
      (indexGet exCatalog.Plans item.PlanCode).isSome = true ∧
      ∃ d ∈ item.Datacenters,
        d.Datacenter = "lon" ∧ d.Availability ≠ "unavailable" :=
  c4_offer_provenance exFeed exCatalog "lon" 2 exSorted (exOffer "f2" "p2" 1)
    ⟨exSorted, by decide, by decide, by decide⟩ (by decide)

/-- C5: `priceForPlan`, given a plan and a currency code, returns the
price of the first tier in listed order with interval count 1 and
interval unit `"month"`, converted from integer micro-units by dividing
by 100000000; if no such tier exists it returns the first tier in listed
order whose duration string equals exactly `"P1M"`, converted
identically; if neither exists it fails with a not-priceable error
(`none`).  In particular a monthly tier of 1599000000 micro-units yields
15.99 and a `"P1M"` tier of 999000000 micro-units yields 9.99. -/
theorem c5_priceForPlan_policy :
    (∀ (plan : Plan) (currency : String) (pre post : List Pricing) (pr : Pricing),
      plan.Pricings = pre ++ pr :: post →
      (∀ q ∈ pre, ¬(q.Interval = 1 ∧ q.IntervalUnit = "month")) →
      pr.Interval = 1 → pr.IntervalUnit = "month" →
      priceForPlan plan currency = some ((pr.Price : ℚ) / 100000000, currency)) ∧
    (∀ (plan : Plan) (currency : String) (pre post : List Pricing) (pr : Pricing),
      plan.Pricings = pre ++ pr :: post →
      (∀ q ∈ plan.Pricings, ¬(q.Interval = 1 ∧ q.IntervalUnit = "month")) →
      (∀ q ∈ pre, q.Duration ≠ "P1M") → pr.Duration = "P1M" →
      priceForPlan plan currency = some ((pr.Price : ℚ) / 100000000, currency)) ∧
    (∀ (plan : Plan) (currency : String),
      (∀ q ∈ plan.Pricings, ¬(q.Interval = 1 ∧ q.IntervalUnit = "month")) →
      (∀ q ∈ plan.Pricings, q.Duration ≠ "P1M") →
      priceForPlan plan currency = none) ∧
    priceForPlan ⟨"m1", "", "", [], [⟨0, 1, "month", "", 1599000000, 0, ""⟩]⟩ "GBP"
      = some (15.99, "GBP") ∧
    priceForPlan ⟨"m2", "", "", [], [⟨0, 0, "", "P1M", 999000000, 0, ""⟩]⟩ "EUR"
      = some (9.99, "EUR") := by
  refine ⟨?_, ?_, ?_, ?_, ?_⟩
  · intro plan currency pre post pr heq hpre h1 h2
    unfold priceForPlan
    rw [heq, find?_append_first _ pre post pr
      (fun y hy => by simpa using hpre y hy) (by simp [h1, h2])]
    simp [Rat.divInt_eq_div]
  · intro plan currency pre post pr heq hmonth hpre h1
    have hn : List.find? (fun pr => decide (pr.Interval = 1 ∧ pr.IntervalUnit = "month"))
        plan.Pricings = none :=
      List.find?_eq_none.mpr (fun q hq => by simpa using hmonth q hq)
    unfold priceForPlan
    rw [hn, heq, find?_append_first _ pre post pr
      (fun y hy => by simpa using hpre y hy) (by simp [h1])]
    simp [Rat.divInt_eq_div]
  · intro plan currency hmonth hdur
    have hn : List.find? (fun pr => decide (pr.Interval = 1 ∧ pr.IntervalUnit = "month"))
        plan.Pricings = none :=
      List.find?_eq_none.mpr (fun q hq => by simpa using hmonth q hq)
    have hn2 : List.find? (fun pr => decide (pr.Duration = "P1M")) plan.Pricings = none :=
      List.find?_eq_none.mpr (fun q hq => by simpa using hdur q hq)
    unfold priceForPlan
    rw [hn, hn2]
  · rw [show priceForPlan ⟨"m1", "", "", [], [⟨0, 1, "month", "", 1599000000, 0, ""⟩]⟩ "GBP"
        = some (Rat.divInt 1599000000 100000000, "GBP") from rfl, Rat.divInt_eq_div]
    norm_num
  · rw [show priceForPlan ⟨"m2", "", "", [], [⟨0, 0, "", "P1M", 999000000, 0, ""⟩]⟩ "EUR"
        = some (Rat.divInt 999000000 100000000, "EUR") from rfl, Rat.divInt_eq_div]
    norm_num

/-- Witness for C5 at a concrete input: a non-monthly first tier is
skipped and the monthly tier found. -/
theorem c5_priceForPlan_policy_witness :
    priceForPlan ⟨"w", "", "", [],
        [⟨0, 12, "month", "", 1, 0, ""⟩, ⟨0, 1, "month", "", 1599000000, 0, ""⟩]⟩ "GBP"
      = some (((1599000000 : Int) : ℚ) / 100000000, "GBP") :=
  c5_priceForPlan_policy.1
    ⟨"w", "", "", [], [⟨0, 12, "month", "", 1, 0, ""⟩, ⟨0, 1, "month", "", 1599000000, 0, ""⟩]⟩
    "GBP" [⟨0, 12, "month", "", 1, 0, ""⟩] [] ⟨0, 1, "month", "", 1599000000, 0, ""⟩
    rfl (by decide) rfl rfl

/-- What one resolved addon code adds to the total in
`computeTotalMonthly`: its monthly price when the code is in the addon
index and priceable, zero when it is absent or unpriceable (the two
`continue` branches). -/
def addonContribution (addonsIdx : String → Option Plan)
    (catalogCurrency code : String) : ℚ :=
  match addonsIdx code with
  | none => 0
  | some addonObj =>
    match priceForPlan addonObj catalogCurrency with
    | none => 0
    | some (addonPrice, _) => addonPrice

theorem foldl_add_contribution (addonsIdx : String → Option Plan)
    (catalogCurrency : String) :
    ∀ (l : List (String × String)) (init : ℚ),
      l.foldl
        (fun t addon =>
          match addonsIdx addon.2 with
          | none => t
          | some addonObj =>
            match priceForPlan addonObj catalogCurrency with
            | none => t
            | some (addonPrice, _) => t + addonPrice)
        init
      = init
        + (l.map (fun addon => addonContribution addonsIdx catalogCurrency addon.2)).sum := by
  intro l
  induction l with
  | nil => intro init; simp
  | cons a t ih =>
    intro init
    rw [List.foldl_cons, ih, List.map_cons, List.sum_cons]
    unfold addonContribution
    rcases ha : addonsIdx a.2 with _ | addonObj
    · simp only [ha, zero_add]
    · rcases hp : priceForPlan addonObj catalogCurrency with _ | ⟨p, c⟩
      · simp only [ha, hp, zero_add]
      · simp only [ha, hp, add_assoc]

/-- C6: per-record anomalies never make `GetTopOffers` fail: a record
whose base plan cannot be priced is silently excluded from the assembled
list; a priced record's total equals the base price plus the prices of
only the successfully priced addons (addons absent from the addon index
or unpriceable contribute nothing); and an empty or fully-filtered input
yields `some []`, never an error. -/
theorem c6_silent_anomalies :
    (∀ (catalog : Catalog) (datacenter : String) (pre post : List Availability)
        (item : Availability) (plan : Plan),
      indexGet catalog.Plans item.PlanCode = some plan →
      priceForPlan plan (getCatalogCurrency catalog) = none →
      buildOffers (pre ++ item :: post) catalog datacenter
        = buildOffers (pre ++ post) catalog datacenter) ∧
    (∀ (plansIdx addonsIdx : String → Option Plan) (planCode fqn cur : String)
        (total : ℚ) (currency invoiceName : String) (addons : List (String × String)),
      computeTotalMonthly plansIdx addonsIdx planCode fqn cur
        = some (total, currency, invoiceName, addons) →
      ∃ plan basePrice,
        plansIdx planCode = some plan ∧
        priceForPlan plan cur = some (basePrice, currency) ∧
        addons = pickMandatoryAddonsForFQN plan fqn ∧
        total = basePrice
          + (addons.map (fun addon => addonContribution addonsIdx cur addon.2)).sum) ∧
    (∀ (catalog : Catalog) (datacenter : String),
      buildOffers [] catalog datacenter = []) ∧
    (∀ (availabilities : List Availability) (catalog : Catalog) (datacenter : String)
        (top : Int) (result : Option (List Offer)),
      buildOffers availabilities catalog datacenter = [] →
      GetTopOffers availabilities catalog datacenter top result →
      result = some []) := by
  refine ⟨?_, ?_, ?_, ?_⟩
  · intro catalog datacenter pre post item plan hidx hp
    have hrec : offerOfRecord catalog datacenter item = [] := by
      unfold offerOfRecord
      by_cases h1 : item.FQN = "" ∨ item.PlanCode = ""
      · simp [h1]
      · by_cases h2 : ((indexCatalog catalog).1 item.PlanCode).isNone
        · simp [h1, h2]
        · by_cases h3 : availableIn item datacenter
          · have hc : computeTotalMonthly (indexCatalog catalog).1 (indexCatalog catalog).2
                item.PlanCode item.FQN (getCatalogCurrency catalog) = none := by
              show computeTotalMonthly (indexGet catalog.Plans) (indexGet catalog.Addons)
                item.PlanCode item.FQN (getCatalogCurrency catalog) = none
              simp [computeTotalMonthly, hidx, hp]
            simp [h1, h2, h3, hc]
          · simp [h1, h2, h3]
    rw [buildOffers_eq_bind, buildOffers_eq_bind]
    simp [hrec]
  · intro plansIdx addonsIdx planCode fqn cur total currency invoiceName addons hc
    unfold computeTotalMonthly at hc
    split at hc
    · exact absurd hc (by simp)
    · rename_i plan hpi
      split at hc
      · exact absurd hc (by simp)
      · rename_i basePrice cur2 hpf
        simp only [Option.some.injEq, Prod.mk.injEq] at hc
        obtain ⟨ht, hcur, hinv, had⟩ := hc
        refine ⟨plan, basePrice, hpi, ?_, had.symm, ?_⟩
        · rw [hpf, hcur]
        · rw [← ht, ← had, foldl_add_contribution]
  · intro catalog datacenter
    rfl
  · rintro availabilities catalog datacenter top result hempty ⟨s, hperm, hsort, heq⟩
    rw [hempty] at hperm
    obtain rfl : s = [] := hperm.eq_nil
    simpa [truncateTop] using heq

/-- Plan with only a yearly tier, hence unpriceable. -/
def exYearly : Plan := ⟨"py", "Y", "", [], [⟨0, 1, "year", "", 10000000000, 0, ""⟩]⟩

/-- Catalog with a priceable plan (carrying one mandatory addon family
whose default addon is absent from the addon pool) and a yearly-only
plan. -/
def exCatalogY : Catalog :=
  ⟨1, ⟨"GBP", "GB", 0⟩,
   [⟨"p1", "srv p1", "", [⟨"bw", false, true, [], "ax"⟩],
     [⟨0, 1, "month", "", 200000000, 0, ""⟩]⟩, exYearly],
   [], []⟩

/-- Witness for C6 at concrete inputs: the yearly-only record is dropped,
the missing addon `"ax"` is skipped in the total, the empty feed yields
the empty list. -/
theorem c6_silent_anomalies_witness :
    buildOffers [exAvail "f1" "p1", exAvail "fy" "py"] exCatalogY "lon"
      = buildOffers [exAvail "f1" "p1"] exCatalogY "lon" ∧
    (∃ plan basePrice,
      indexGet exCatalogY.Plans "p1" = some plan ∧
      priceForPlan plan "GBP" = some (basePrice, "GBP") ∧
      [("bw", "ax")] = pickMandatoryAddonsForFQN plan "f1" ∧
      (2 : ℚ) = basePrice
        + ([("bw", "ax")].map
            (fun addon => addonContribution (indexGet exCatalogY.Addons) "GBP" addon.2)).sum) ∧
    buildOffers [] exCatalogY "lon" = [] :=
  ⟨c6_silent_anomalies.1 exCatalogY "lon" [exAvail "f1" "p1"] [] (exAvail "fy" "py")
      exYearly (by decide) (by decide),
   c6_silent_anomalies.2.1 (indexGet exCatalogY.Plans) (indexGet exCatalogY.Addons)
      "p1" "f1" "GBP" 2 "GBP" "srv p1" [("bw", "ax")] (by decide),
   c6_silent_anomalies.2.2.1 exCatalogY "lon"⟩

/-- The match criterion of the addon resolver, in the spec's phrasing: a
candidate matches if its raw code is a substring of the unit identifier,
or — only when stripping the trailing variant-suffix pattern changed the
string — its stripped form is. -/
def candidateMatches (fqn opt : String) : Bool :=
  contains fqn opt
    || (decide (suffixPatternStrip opt ≠ opt) && contains fqn (suffixPatternStrip opt))

/-- Modelled from the spec's words (section 4.2, steps 1–5): per mandatory
family, the first candidate in catalog order satisfying
`candidateMatches`, the family default when none does, non-empty choices
recorded under the normalized family name. -/
def pickMandatoryAddonsSpec (plan : Plan) (fqn : String) : List (String × String) :=
  plan.AddonFamilies.foldl
    (fun result fam =>
      if !fam.Mandatory then result
      else
        let famName := if fam.Name = "" then "unknown" else fam.Name
        let choice :=
          match fam.Addons.find? (candidateMatches fqn) with
          | some opt => opt
          | none => fam.Default
        if choice ≠ "" then mapInsert result famName choice else result)
    []

theorem contains_empty_substr (fqn : String) : contains fqn "" = false := by
  simp [contains]

theorem candidateMatches_empty (fqn : String) : candidateMatches fqn "" = false := by
  rw [candidateMatches, show suffixPatternStrip "" = "" from rfl,
    contains_empty_substr]
  simp

theorem pickAddonCandidate_eq_find? (fqn : String) :
    ∀ opts : List String,
      pickAddonCandidate fqn opts
        = (match opts.find? (candidateMatches fqn) with
           | some opt => opt
           | none => "") := by
  intro opts
  induction opts with
  | nil => rfl
  | cons opt rest ih =>
    by_cases he : opt = ""
    · subst he
      rw [show pickAddonCandidate fqn ("" :: rest) = pickAddonCandidate fqn rest from by
          rw [pickAddonCandidate]; simp,
        List.find?_cons_of_neg _ (by simp [candidateMatches_empty])]
      exact ih
    · by_cases h1 : contains fqn opt = true
      · rw [show pickAddonCandidate fqn (opt :: rest) = opt from by
            rw [pickAddonCandidate]; simp [he, h1],
          List.find?_cons_of_pos _ (by simp [candidateMatches, h1])]
      · by_cases h2 : suffixPatternStrip opt ≠ opt
            ∧ contains fqn (suffixPatternStrip opt) = true
        · rw [show pickAddonCandidate fqn (opt :: rest) = opt from by
              rw [pickAddonCandidate]; simp [he, h1, h2.1, h2.2],
            List.find?_cons_of_pos _ (by simp [candidateMatches, h2.1, h2.2])]
        · rw [show pickAddonCandidate fqn (opt :: rest) = pickAddonCandidate fqn rest from by
              rw [pickAddonCandidate]
              simp only [he, if_false]
              rw [if_neg h1, if_neg h2],
            List.find?_cons_of_neg _ (by
              simp only [candidateMatches, Bool.or_eq_true, Bool.and_eq_true,
                decide_eq_true_eq, not_or, not_and]
              exact ⟨h1, fun hs hc => h2 ⟨hs, hc⟩⟩)]
          exact ih

/-- C7: the addon resolver equals, for every base plan and unit
identifier, the spec's algorithm: per mandatory family iterate candidate
codes in catalog order, select the first whose raw code is a verbatim
substring of the identifier or — when stripping the trailing
variant-suffix pattern `-\d\d[a-z]+\d*(-v\d+)?` changed the string — whose
stripped form is; fall back to the family default; record a non-empty
final choice under the family name (`"unknown"` when empty); families
yielding no code contribute no entry. -/
theorem c7_resolver_matches_spec (plan : Plan) (fqn : String) :
    pickMandatoryAddonsForFQN plan fqn = pickMandatoryAddonsSpec plan fqn := by
  unfold pickMandatoryAddonsForFQN pickMandatoryAddonsSpec
  apply List.foldl_ext
  intro acc fam hfam
  by_cases hm : fam.Mandatory
  · simp only [hm, Bool.not_true, Bool.false_eq_true, if_false,
      pickAddonCandidate_eq_find? fqn fam.Addons]
    rcases hf : fam.Addons.find? (candidateMatches fqn) with _ | opt
    · rfl
    · have hne : opt ≠ "" := by
        intro he
        have := List.find?_some hf
        rw [he, candidateMatches_empty] at this
        exact absurd this (by simp)
      simp [hne]
  · simp [hm]

/-- C8: addon resolution is deterministic: two invocations of the
resolver with the same (plan, identifier) pair produce identical
mappings. -/
theorem c8_resolver_deterministic (plan1 plan2 : Plan) (fqn1 fqn2 : String)
    (hp : plan1 = plan2) (hf : fqn1 = fqn2) :
    pickMandatoryAddonsForFQN plan1 fqn1 = pickMandatoryAddonsForFQN plan2 fqn2 := by
  rw [hp, hf]

/-- Witness for C8 at a concrete input. -/
theorem c8_resolver_deterministic_witness :
    pickMandatoryAddonsForFQN
        ⟨"p", "", "", [⟨"bw", false, true, ["bw-01abc2"], "d"⟩], []⟩ "host.bw.1"
      = pickMandatoryAddonsForFQN
        ⟨"p", "", "", [⟨"bw", false, true, ["bw-01abc2"], "d"⟩], []⟩ "host.bw.1" :=
  c8_resolver_deterministic
    ⟨"p", "", "", [⟨"bw", false, true, ["bw-01abc2"], "d"⟩], []⟩
    ⟨"p", "", "", [⟨"bw", false, true, ["bw-01abc2"], "d"⟩], []⟩
    "host.bw.1" "host.bw.1" rfl rfl

/-- C9: when the resolver selects a candidate via the stripped-suffix
retry (the stripped form matches the identifier but the raw form does
not), the value returned — and hence recorded in the output map — is the
original unstripped candidate code, not the stripped form. -/
theorem c9_unstripped_recorded (fqn : String) (pre post : List String) (opt : String)
    (hpre : ∀ o ∈ pre, candidateMatches fqn o = false)
    (hraw : contains fqn opt = false)
    (hchanged : suffixPatternStrip opt ≠ opt)
    (hstrip : contains fqn (suffixPatternStrip opt) = true) :
    pickAddonCandidate fqn (pre ++ opt :: post) = opt ∧
    pickAddonCandidate fqn (pre ++ opt :: post) ≠ suffixPatternStrip opt := by
  have hne : opt ≠ "" := by intro he; subst he; exact hchanged rfl
  have hmain : pickAddonCandidate fqn (pre ++ opt :: post) = opt := by
    rw [pickAddonCandidate_eq_find? fqn,
      find?_append_first _ pre post opt hpre
        (by simp [candidateMatches, hchanged, hstrip])]
  exact ⟨hmain, by rw [hmain]; exact fun he => hchanged he.symm⟩

/-- Witness for C9 at a concrete input: `"ssd-01abc2"` is not a substring
of the identifier, its stripped form `"ssd"` is, and the resolver both
returns and records the unstripped code. -/
theorem c9_unstripped_recorded_witness :
    (pickAddonCandidate "1801sk12.ssd.1" ["ssd-01abc2"] = "ssd-01abc2" ∧
     pickAddonCandidate "1801sk12.ssd.1" ["ssd-01abc2"]
       ≠ suffixPatternStrip "ssd-01abc2") ∧
    pickMandatoryAddonsForFQN
        ⟨"p", "", "", [⟨"storage", false, true, ["ssd-01abc2"], ""⟩], []⟩ "1801sk12.ssd.1"
      = [("storage", "ssd-01abc2")] :=
  ⟨c9_unstripped_recorded "1801sk12.ssd.1" [] [] "ssd-01abc2"
      (by simp) (by decide) (by decide) (by decide),
   by decide⟩

/-!
## C2: instability of the `sort.Slice` step

`sort.Slice` is documented as "not guaranteed to be stable: equal
elements may be reversed from their original order", and the pdqsort the
Go runtime executes for it does reverse equal elements on the feed
below.  Trace of `pdqsort_func(data, 0, 13, 4)` on the assembled prices
`[0.6, 5, 5, 5, 0.7, 0.8, 0.9, 1, 2, 6, 0.1, 0.3, 0.2]` (offers
`f0 … f12` in feed order): length 13 > 12, limit 4 ≠ 0, `wasBalanced`
holds, so `choosePivot` takes the median of positions 3, 6, 9 (values
5, 0.9, 6): pivot index 3 (value 5, offer `f3`), one comparison swap →
unknown hint, so `partialInsertionSort` is skipped.  `partition` swaps
the pivot to position 0 and exchanges across the range: `f1` (price 5,
position 1) is swapped to position 12, then `f2` (price 5, position 2)
to position 11 — reversing their order — then `f9` (6) with `f10`
(0.1), and the final swap puts the pivot at position 9, giving
`[0.1 f10, 0.2 f12, 0.3 f11, 0.6 f0, 0.7 f4, 0.8 f5, 0.9 f6, 1 f7,
2 f8, (5 f3), 6 f9, 5 f2, 5 f1]` (the list `c2Mid`).  The shorter right
side `[6 f9, 5 f2, 5 f1]` is insertion-sorted (stably) to
`[5 f2, 5 f1, 6 f9]`, and the already-ascending left side is left
unchanged by its insertion sort, so the three price-5 offers end in the
order `f3, f2, f1` — the reverse of their feed order `f1, f2, f3`. -/

/-- Plan of the C2 feed: one monthly tier of `micro` micro-units. -/
def c2Plan (code : String) (micro : Int) : Plan :=
  ⟨code, "srv " ++ code, "", [], [⟨0, 1, "month", "", micro, 0, ""⟩]⟩

/-- Availability record of the C2 feed, in stock in `"lon"`. -/
def c2Avail (f code : String) : Availability :=
  ⟨f, code, [⟨"lon", "available"⟩]⟩

/-- The C2 catalog: thirteen plans priced (in currency units)
0.6, 5, 5, 5, 0.7, 0.8, 0.9, 1, 2, 6, 0.1, 0.3, 0.2. -/
def c2Catalog : Catalog :=
  ⟨1, ⟨"GBP", "GB", 0⟩,
   [c2Plan "p0" 60000000, c2Plan "p1" 500000000, c2Plan "p2" 500000000,
    c2Plan "p3" 500000000, c2Plan "p4" 70000000, c2Plan "p5" 80000000,
    c2Plan "p6" 90000000, c2Plan "p7" 100000000, c2Plan "p8" 200000000,
    c2Plan "p9" 600000000, c2Plan "p10" 10000000, c2Plan "p11" 30000000,
    c2Plan "p12" 20000000],
   [], []⟩

/-- The C2 feed: offers `f0 … f12` in encounter order. -/
def c2Feed : List Availability :=
  [c2Avail "f0" "p0", c2Avail "f1" "p1", c2Avail "f2" "p2", c2Avail "f3" "p3",
   c2Avail "f4" "p4", c2Avail "f5" "p5", c2Avail "f6" "p6", c2Avail "f7" "p7",
   c2Avail "f8" "p8", c2Avail "f9" "p9", c2Avail "f10" "p10", c2Avail "f11" "p11",
   c2Avail "f12" "p12"]

/-- Offer assembled from the C2 feed for record `f` on plan `code`. -/
def c2Offer (f code : String) (v : ℚ) : Offer :=
  ⟨f, code, v, "GBP", "srv " ++ code, []⟩

/-- The offers assembled from the C2 feed, in encounter order. -/
def c2Assembled : List Offer :=
  [c2Offer "f0" "p0" (mkRat 3 5), c2Offer "f1" "p1" 5, c2Offer "f2" "p2" 5,
   c2Offer "f3" "p3" 5, c2Offer "f4" "p4" (mkRat 7 10), c2Offer "f5" "p5" (mkRat 4 5),
   c2Offer "f6" "p6" (mkRat 9 10), c2Offer "f7" "p7" 1, c2Offer "f8" "p8" 2,
   c2Offer "f9" "p9" 6, c2Offer "f10" "p10" (mkRat 1 10),
   c2Offer "f11" "p11" (mkRat 3 10), c2Offer "f12" "p12" (mkRat 1 5)]

/-- The array contents right after `partition_func` on the C2 feed: both
equal-priced pairs already exchanged, pivot `f3` at position 9. -/
def c2Mid : List Offer :=
  [c2Offer "f10" "p10" (mkRat 1 10), c2Offer "f12" "p12" (mkRat 1 5),
   c2Offer "f11" "p11" (mkRat 3 10), c2Offer "f0" "p0" (mkRat 3 5),
   c2Offer "f4" "p4" (mkRat 7 10), c2Offer "f5" "p5" (mkRat 4 5),
   c2Offer "f6" "p6" (mkRat 9 10), c2Offer "f7" "p7" 1, c2Offer "f8" "p8" 2,
   c2Offer "f3" "p3" 5, c2Offer "f9" "p9" 6, c2Offer "f2" "p2" 5,
   c2Offer "f1" "p1" 5]

/-- The list `sort.Slice`'s pdqsort actually produces on the C2 feed:
ascending by price, but with the equal-priced offers `f1`, `f2` in
reversed encounter order. -/
def c2Out : List Offer :=
  [c2Offer "f10" "p10" (mkRat 1 10), c2Offer "f12" "p12" (mkRat 1 5),
   c2Offer "f11" "p11" (mkRat 3 10), c2Offer "f0" "p0" (mkRat 3 5),
   c2Offer "f4" "p4" (mkRat 7 10), c2Offer "f5" "p5" (mkRat 4 5),
   c2Offer "f6" "p6" (mkRat 9 10), c2Offer "f7" "p7" 1, c2Offer "f8" "p8" 2,
   c2Offer "f3" "p3" 5, c2Offer "f2" "p2" 5, c2Offer "f1" "p1" 5,
   c2Offer "f9" "p9" 6]

set_option maxRecDepth 100000
set_option maxHeartbeats 2000000

theorem c2_buildOffers_eval : buildOffers c2Feed c2Catalog "lon" = c2Assembled := by
  decide

theorem c2_choosePivot_eval :
    choosePivotF c2Assembled.toArray 0 13 = (3, SortHint.unknown) := by
  decide

theorem c2_partition_eval :
    partitionF c2Assembled.toArray 0 13 3 = (9, false, c2Mid.toArray) := by
  decide

theorem c2_right_eval :
    pdqsortLoop 89 c2Mid.toArray 10 13 4 true true = c2Out.toArray := by
  decide

theorem c2_left_eval :
    pdqsortLoop 89 c2Out.toArray 0 9 4 true false = c2Out.toArray := by
  decide

theorem c2_sortSlice_eval : sortSliceOffers c2Assembled = c2Out := by
  have hmain : pdqsortLoop 90 c2Assembled.toArray 0 13 4 true true = c2Out.toArray := by
    show pdqsortLoop (89+1) c2Assembled.toArray 0 13 4 true true = c2Out.toArray
    rw [pdqsortLoop]
    simp [c2_choosePivot_eval, c2_partition_eval, c2_right_eval, c2_left_eval]
  show (pdqsortLoop (2 * c2Assembled.toArray.size + 64) c2Assembled.toArray 0
      c2Assembled.toArray.size (bitsLen c2Assembled.toArray.size) true true).toList = c2Out
  have hs : c2Assembled.toArray.size = 13 := by decide
  have hb : bitsLen 13 = 4 := by unfold bitsLen; norm_num [Nat.log2]
  rw [hs, hb, show 2 * 13 + 64 = 90 from rfl, hmain]

/-- C2 fails on the code: on the thirteen-record feed `c2Feed`, the
algorithm Go runs for `sort.Slice` (`sortSliceOffers`) produces `c2Out`,
a valid `GetTopOffers` result in which the offers of `f1` and `f2` —
equal total price 5, encountered in the feed at positions 1 and 2 in
that order — appear at output positions 11 and 10: reversed.  The sort
is therefore not stable (a stable sort would keep `f1` before `f2`). -/
theorem c2_sort_not_stable :
    sortSliceOffers (buildOffers c2Feed c2Catalog "lon") = c2Out ∧
    GetTopOffers c2Feed c2Catalog "lon" 13 (some c2Out) ∧
    (buildOffers c2Feed c2Catalog "lon")[1]? = some (c2Offer "f1" "p1" 5) ∧
    (buildOffers c2Feed c2Catalog "lon")[2]? = some (c2Offer "f2" "p2" 5) ∧
    c2Out[10]? = some (c2Offer "f2" "p2" 5) ∧
    c2Out[11]? = some (c2Offer "f1" "p1" 5) ∧
    (c2Offer "f1" "p1" 5).Price = (c2Offer "f2" "p2" 5).Price := by
  refine ⟨?_, ⟨c2Out, ?_, by decide, by decide⟩, ?_, ?_, by decide, by decide, by decide⟩
  · rw [c2_buildOffers_eval]; exact c2_sortSlice_eval
  · rw [c2_buildOffers_eval]; decide
  · rw [c2_buildOffers_eval]; decide
  · rw [c2_buildOffers_eval]; decide

set_option maxRecDepth 512
set_option maxHeartbeats 200000

end Ovh
